import Mathlib

/-!
Verification of the effectdeck core effect algebra.

The development shallowly embeds `packages/core/src/effects/Effect.ts`
(the `Effect` contract and its combinators), the four primitive effects
(`DamageEffect`, `HealEffect`, `DrawCardEffect`, `ResourceEffect`), the
capability registry (`Context.ts`), and the in-memory storage backend
(`MemoryStorage`).  JavaScript objects used as string-keyed records
(`Record<string, ...>`, `Map<string, ...>`) are modelled as association
lists in insertion order, which is the enumeration order `Object.keys`
and `Map` iteration use for the string keys occurring here.  JavaScript
numbers holding game quantities are modelled as `Int`.
-/

/-! ## Association-list model of string-keyed records and maps -/

/-- First value bound to `key`, i.e. `m[key]` / `m.get(key)`. -/
def lookupA {α : Type} : List (String × α) → String → Option α
  | [], _ => none
  | (k, v) :: rest, key => if k = key then some v else lookupA rest key

/-- `m[key] = v` / `m.set(key, v)`: overwrite the first binding of `key`
in place, or append a new binding when `key` is absent (JS objects and
`Map`s keep the original insertion position on overwrite). -/
def setA {α : Type} : List (String × α) → String → α → List (String × α)
  | [], key, v => [(key, v)]
  | (k, w) :: rest, key, v =>
    if k = key then (k, v) :: rest else (k, w) :: setA rest key v

theorem lookupA_setA_self {α : Type} (m : List (String × α)) (k : String) (v : α) :
    lookupA (setA m k v) k = some v := by
  induction m with
  | nil => simp [setA, lookupA]
  | cons hd tl ih =>
    obtain ⟨k', w⟩ := hd
    by_cases h : k' = k <;> simp [setA, lookupA, h, ih]

theorem lookupA_setA_ne {α : Type} (m : List (String × α)) (k j : String) (v : α)
    (hne : j ≠ k) : lookupA (setA m k v) j = lookupA m j := by
  induction m with
  | nil => simp [setA, lookupA, Ne.symm hne]
  | cons hd tl ih =>
    obtain ⟨k', w⟩ := hd
    by_cases h : k' = k
    · subst h
      simp [setA, lookupA, Ne.symm hne]
    · simp only [setA, if_neg h, lookupA]
      by_cases h2 : k' = j <;> simp [h2, ih]

theorem setA_self {α : Type} (m : List (String × α)) (k : String) (v : α)
    (h : lookupA m k = some v) : setA m k v = m := by
  induction m with
  | nil => simp [lookupA] at h
  | cons hd tl ih =>
    obtain ⟨k', w⟩ := hd
    by_cases hk : k' = k
    · subst hk
      simp [lookupA] at h
      simp [setA, h]
    · simp [lookupA, hk] at h
      simp [setA, hk, ih h]

theorem mem_setA {α : Type} {m : List (String × α)} {k : String} {v : α} {pr : String × α}
    (h : pr ∈ setA m k v) : pr = (k, v) ∨ pr ∈ m := by
  induction m with
  | nil =>
    simp only [setA, List.mem_singleton] at h
    exact Or.inl h
  | cons hd tl ih =>
    obtain ⟨k', w⟩ := hd
    by_cases hk : k' = k
    · subst hk
      simp only [setA, if_pos rfl, List.mem_cons, if_true, eq_self_iff_true] at h
      rcases h with h1 | h1
      · exact Or.inl h1
      · exact Or.inr (List.mem_cons_of_mem _ h1)
    · simp only [setA, if_neg hk, List.mem_cons] at h
      rcases h with h1 | h1
      · exact Or.inr (List.mem_cons.mpr (Or.inl h1))
      · rcases ih h1 with h2 | h2
        · exact Or.inl h2
        · exact Or.inr (List.mem_cons_of_mem _ h2)

theorem lookupA_mem {α : Type} {m : List (String × α)} {k : String} {v : α}
    (h : lookupA m k = some v) : (k, v) ∈ m := by
  induction m with
  | nil => simp [lookupA] at h
  | cons hd tl ih =>
    obtain ⟨k', w⟩ := hd
    by_cases hk : k' = k
    · subst hk
      simp [lookupA] at h
      simp [h]
    · simp [lookupA, hk] at h
      exact List.mem_cons_of_mem _ (ih h)

/-! ## State model (`Effect.ts` interfaces)

`Card` in the source additionally carries its own `effects: Effect[]`
behaviour tree; no operation verified here ever inspects it (cards are
moved between zones as opaque values), so that field is not modelled. -/

structure Card where
  id : String
  name : String
  cost : Int
  tags : List String
deriving DecidableEq, Repr

inductive GamePhase where
  | draw
  | main
  | discard
  | endPhase
deriving DecidableEq, Repr

structure PlayerState where
  id : String
  health : Int
  maxHealth : Int
  hand : List Card
  deck : List Card
  discardPile : List Card
  resources : List (String × Int)
deriving DecidableEq, Repr

structure GameState where
  players : List (String × PlayerState)
  currentPlayer : String
  turn : Int
  phase : GamePhase
deriving DecidableEq, Repr

/-- Metadata payloads (`Record<string, unknown>`) carried by a result;
the concrete value type is irrelevant to execution, string pairs stand
in for the open mapping. -/
abbrev MetaMap : Type := List (String × String)

structure EffectResult where
  success : Bool
  newState : GameState
  messages : List String
  metadata : Option MetaMap := none
deriving DecidableEq

/-- Execution environment handed to `execute`.  The `random` and `log`
capabilities are part of the interface but unused by every effect in the
source; `Rat` stands in for the JS float type. -/
structure GameContext where
  playerId : String
  gameState : GameState
  random : Unit → Rat := fun _ => 0
  log : String → Unit := fun _ => ()

/-! ## Effect trees

One constructor per `Effect` subclass of the source.  The abstract base
class is an open hierarchy — any consumer may subclass it with an
arbitrary `execute`; the `custom` constructor stands for such a leaf
(its own description string plus its `execute` method).  The
`ContextualEffect` combinator only injects an ephemeral key into the
dynamically-typed execution context and is not exercised by any claim.
The chained combinator carries the source's `chainFn`, a function from
the first result to the dynamically chosen next effect. -/

inductive DamageTarget where
  | self
  | opponent
  | all
deriving DecidableEq, Repr

inductive HealTarget where
  | self
  | ally
  | all
deriving DecidableEq, Repr

inductive DrawTarget where
  | self
  | opponent
deriving DecidableEq, Repr

inductive ResourceTarget where
  | self
  | opponent
deriving DecidableEq, Repr

inductive ResourceOp where
  | gain
  | spend
  | set
deriving DecidableEq, Repr

inductive Effect where
  | damage (amount : Int) (target : DamageTarget)
  | heal (amount : Int) (target : HealTarget)
  | draw (count : Int) (target : DrawTarget)
  | resource (resourceType : String) (amount : Int) (operation : ResourceOp)
      (target : ResourceTarget)
  | custom (description : String) (exec : GameContext → EffectResult)
  | composite (effects : List Effect)
  | sequential (effects : List Effect)
  | parallel (effects : List Effect)
  | chained (first : Effect) (chainFn : EffectResult → Effect)
  | conditional (effect : Effect) (predicate : GameContext → Bool)
  | repeated (effect : Effect) (times : Int)

def DamageTarget.str : DamageTarget → String
  | .self => "self"
  | .opponent => "opponent"
  | .all => "all"

def HealTarget.str : HealTarget → String
  | .self => "self"
  | .ally => "ally"
  | .all => "all"

def DrawTarget.str : DrawTarget → String
  | .self => "self"
  | .opponent => "opponent"

def ResourceTarget.str : ResourceTarget → String
  | .self => "self"
  | .opponent => "opponent"

def ResourceOp.str : ResourceOp → String
  | .gain => "gain"
  | .spend => "spend"
  | .set => "set"

/-! ## Primitive effect semantics -/

/-- `DamageEffect.execute`.  The `self` branch reads
`draft.players[playerId]` and checks object truthiness; the `opponent`
branch takes the first enumerated player whose id differs from the
acting player, where JS string truthiness makes an empty-string id count
as "no opponent found". -/
def damageExec (amount : Int) (target : DamageTarget) (ctx : GameContext) : EffectResult :=
  let gameState := ctx.gameState
  let playerId := ctx.playerId
  match target with
  | .self =>
    match lookupA gameState.players playerId with
    | some selfPlayer =>
      let actualDamage := min amount selfPlayer.health
      { success := true
        newState := { gameState with
          players := setA gameState.players playerId
            { selfPlayer with health := selfPlayer.health - actualDamage } }
        messages := [playerId ++ " takes " ++ toString actualDamage ++ " damage"]
        metadata := none }
    | none =>
      { success := false, newState := gameState
        messages := ["Player " ++ playerId ++ " not found"], metadata := none }
  | .opponent =>
    match gameState.players.find? (fun pr => pr.1 != playerId) with
    | some (opponentId, opponent) =>
      if opponentId = "" then
        { success := false, newState := gameState
          messages := ["No opponent found"], metadata := none }
      else
        let actualDamage := min amount opponent.health
        { success := true
          newState := { gameState with
            players := setA gameState.players opponentId
              { opponent with health := opponent.health - actualDamage } }
          messages := [opponentId ++ " takes " ++ toString actualDamage ++ " damage"]
          metadata := none }
    | none =>
      { success := false, newState := gameState
        messages := ["No opponent found"], metadata := none }
  | .all =>
    { success := true
      newState := { gameState with
        players := gameState.players.map (fun pr =>
          (pr.1, { pr.2 with health := pr.2.health - min amount pr.2.health })) }
      messages := gameState.players.map (fun pr =>
        pr.1 ++ " takes " ++ toString (min amount pr.2.health) ++ " damage")
      metadata := none }

/-- `HealEffect.execute`, the mirror image of `damageExec` with the
heal amount clamped to `maxHealth - health`. -/
def healExec (amount : Int) (target : HealTarget) (ctx : GameContext) : EffectResult :=
  let gameState := ctx.gameState
  let playerId := ctx.playerId
  match target with
  | .self =>
    match lookupA gameState.players playerId with
    | some selfPlayer =>
      let actualHeal := min amount (selfPlayer.maxHealth - selfPlayer.health)
      { success := true
        newState := { gameState with
          players := setA gameState.players playerId
            { selfPlayer with health := selfPlayer.health + actualHeal } }
        messages := [playerId ++ " heals " ++ toString actualHeal ++ " health"]
        metadata := none }
    | none =>
      { success := false, newState := gameState
        messages := ["Player " ++ playerId ++ " not found"], metadata := none }
  | .ally =>
    match gameState.players.find? (fun pr => pr.1 != playerId) with
    | some (allyId, ally) =>
      if allyId = "" then
        { success := false, newState := gameState
          messages := ["No ally found"], metadata := none }
      else
        let actualHeal := min amount (ally.maxHealth - ally.health)
        { success := true
          newState := { gameState with
            players := setA gameState.players allyId
              { ally with health := ally.health + actualHeal } }
          messages := [allyId ++ " heals " ++ toString actualHeal ++ " health"]
          metadata := none }
    | none =>
      { success := false, newState := gameState
        messages := ["No ally found"], metadata := none }
  | .all =>
    { success := true
      newState := { gameState with
        players := gameState.players.map (fun pr =>
          (pr.1, { pr.2 with health := pr.2.health + min amount (pr.2.maxHealth - pr.2.health) })) }
      messages := gameState.players.map (fun pr =>
        pr.1 ++ " heals " ++ toString (min amount (pr.2.maxHealth - pr.2.health)) ++ " health")
      metadata := none }

/-- Target-id computation shared by `ResourceEffect` and
`DrawCardEffect`: `self` uses the acting player id, `opponent` the first
enumerated player id that differs from it; the source then guards with
`if (!targetId)`, so an undefined result and an empty-string id both
fail resolution. -/
def resolveTargetId (isSelf : Bool) (ctx : GameContext) : Option String :=
  let targetId? :=
    if isSelf then some ctx.playerId
    else (ctx.gameState.players.map Prod.fst).find? (fun id => id != ctx.playerId)
  match targetId? with
  | some tid => if tid = "" then none else some tid
  | none => none

/-- `ResourceEffect.execute` (`src/unnamed/part_000`).  A failing
`spend` leaves the immer draft untouched, so `produce` hands back the
original state value. -/
def resourceExec (resourceType : String) (amount : Int) (operation : ResourceOp)
    (target : ResourceTarget) (ctx : GameContext) : EffectResult :=
  let gameState := ctx.gameState
  match resolveTargetId (target = ResourceTarget.self) ctx with
  | none =>
    { success := false, newState := gameState
      messages := ["No " ++ target.str ++ " player found"], metadata := none }
  | some targetId =>
    match lookupA gameState.players targetId with
    | none =>
      { success := false, newState := gameState
        messages := ["Player " ++ targetId ++ " not found"], metadata := none }
    | some player =>
      let currentAmount := (lookupA player.resources resourceType).getD 0
      match operation with
      | .gain =>
        { success := true
          newState := { gameState with
            players := setA gameState.players targetId
              { player with
                  resources := setA player.resources resourceType (currentAmount + amount) } }
          messages := [targetId ++ " gains " ++ toString amount ++ " " ++ resourceType]
          metadata := none }
      | .spend =>
        if currentAmount < amount then
          { success := false, newState := gameState
            messages := [targetId ++ " doesn\x27t have enough " ++ resourceType ++
              " (" ++ toString currentAmount ++ "/" ++ toString amount ++ ")"]
            metadata := none }
        else
          { success := true
            newState := { gameState with
              players := setA gameState.players targetId
                { player with
                    resources := setA player.resources resourceType (currentAmount - amount) } }
            messages := [targetId ++ " spends " ++ toString amount ++ " " ++ resourceType]
            metadata := none }
      | .set =>
        { success := true
          newState := { gameState with
            players := setA gameState.players targetId
              { player with resources := setA player.resources resourceType amount } }
          messages := [targetId ++ " " ++ resourceType ++ " set to " ++ toString amount]
          metadata := none }

/-! ## Draw-card loop -/

/-- The mutable draft state of `DrawCardEffect.execute`'s `for` loop:
the target player's three card zones, the `cardsDrawn` counter and the
messages pushed so far. -/
structure DrawLoop where
  deck : List Card
  hand : List Card
  discardPile : List Card
  drawn : Nat
  msgs : List String
deriving DecidableEq, Repr

/-- Tail of one loop iteration: `if (deck.length > 0) { hand.push(deck.pop()); cardsDrawn++ }`
— one card moves from the tail of the deck to the tail of the hand. -/
def drawStep (st : DrawLoop) : DrawLoop :=
  match st.deck.getLast? with
  | some card =>
    { st with deck := st.deck.dropLast, hand := st.hand ++ [card], drawn := st.drawn + 1 }
  | none => st

/-- The `for (let i = 0; i < count; i++)` loop of `DrawCardEffect`:
an empty deck with an empty discard pile pushes the cannot-draw message
and breaks out of the loop; an empty deck with a non-empty discard pile
moves the whole discard pile into the deck in order, clears it, logs the
reshuffle and continues with the draw of the same iteration. -/
def drawGo (targetId : String) : Nat → DrawLoop → DrawLoop
  | 0, st => st
  | k + 1, st =>
    if st.deck.isEmpty then
      if st.discardPile.isEmpty then
        { st with msgs := st.msgs ++ [targetId ++ " cannot draw - no cards available"] }
      else
        drawGo targetId k (drawStep
          { st with deck := st.discardPile, discardPile := [],
                    msgs := st.msgs ++ [targetId ++ " shuffles discard pile into deck"] })
    else
      drawGo targetId k (drawStep st)

/-- `DrawCardEffect.execute`.  `success` is initialised to `true` and
never reassigned after the target resolves, so running out of cards is
not a failure; the drawn-count summary message is appended only when at
least one card moved. -/
def drawExec (count : Int) (target : DrawTarget) (ctx : GameContext) : EffectResult :=
  let gameState := ctx.gameState
  match resolveTargetId (target = DrawTarget.self) ctx with
  | none =>
    { success := false, newState := gameState
      messages := ["No " ++ target.str ++ " player found"], metadata := none }
  | some targetId =>
    match lookupA gameState.players targetId with
    | none =>
      { success := false, newState := gameState
        messages := ["Player " ++ targetId ++ " not found"], metadata := none }
    | some player =>
      let res := drawGo targetId count.toNat
        { deck := player.deck, hand := player.hand, discardPile := player.discardPile,
          drawn := 0, msgs := [] }
      { success := true
        newState := { gameState with
          players := setA gameState.players targetId
            { player with deck := res.deck, hand := res.hand, discardPile := res.discardPile } }
        messages := res.msgs ++
          (if res.drawn > 0 then
            [targetId ++ " draws " ++ toString res.drawn ++ " card" ++
              (if res.drawn > 1 then "s" else "")]
          else [])
        metadata := none }

/-! ## Descriptions

Each subclass computes a human-readable `description` at construction
from its children's descriptions; only `ConditionalEffect`'s fallthrough
message ever reads it during execution. -/

mutual

def Effect.descr : Effect → String
  | .damage amount target => "Deal " ++ toString amount ++ " damage to " ++ target.str
  | .heal amount target => "Heal " ++ toString amount ++ " to " ++ target.str
  | .draw count target =>
    "Draw " ++ toString count ++ " card" ++ (if count > 1 then "s" else "") ++
      " (" ++ target.str ++ ")"
  | .resource resourceType amount operation target =>
    operation.str ++ " " ++ toString amount ++ " " ++ resourceType ++
      " (" ++ target.str ++ ")"
  | .custom description _ => description
  | .composite effects => "Composite: " ++ String.intercalate ", " (descrList effects)
  | .sequential effects => "Sequential: " ++ String.intercalate " -> " (descrList effects)
  | .parallel effects => "Parallel: " ++ String.intercalate " | " (descrList effects)
  | .chained first _ => "Chained: " ++ first.descr ++ " -> (dynamic)"
  | .conditional effect _ => "Conditional: " ++ effect.descr
  | .repeated effect times => "Repeat " ++ toString times ++ "x: " ++ effect.descr

def descrList : List Effect → List String
  | [] => []
  | e :: rest => e.descr :: descrList rest

end

/-! ## Combinator semantics -/

/-- The spread merge `{ ...state, ...result.newState }` used by
`ParallelEffect`'s fold: a shallow top-level-field merge.  Both operands
are complete `GameState` records, so every top-level field present on
the right operand overwrites the left one. -/
def mergeStates (state newState : GameState) : GameState :=
  { players := newState.players
    currentPlayer := newState.currentPlayer
    turn := newState.turn
    phase := newState.phase }

/-- The `for (let i = 0; i < times; i++)` loop of `RepeatedEffect`,
iterating the wrapped effect's `execute` (passed as a function) while
threading `currentState` and accumulating `allMessages`, breaking at the
first failed iteration. -/
def repeatGo (exec : GameContext → EffectResult) (ctx : GameContext) :
    Nat → GameState → List String → Bool × GameState × List String
  | 0, currentState, allMessages => (true, currentState, allMessages)
  | k + 1, currentState, allMessages =>
    let result := exec { ctx with gameState := currentState }
    if result.success then
      repeatGo exec ctx k result.newState (allMessages ++ result.messages)
    else
      (false, result.newState, allMessages ++ result.messages)

mutual

/-- `Effect.execute`: dispatch to the subclass bodies of `Effect.ts`
and the four primitives. -/
def Effect.execute : Effect → GameContext → EffectResult
  | .damage amount target, ctx => damageExec amount target ctx
  | .heal amount target, ctx => healExec amount target ctx
  | .draw count target, ctx => drawExec count target ctx
  | .resource resourceType amount operation target, ctx =>
    resourceExec resourceType amount operation target ctx
  | .custom _ exec, ctx => exec ctx
  | .composite effects, ctx =>
    let r := compositeGo effects ctx ctx.gameState []
    { success := r.1, newState := r.2.1, messages := r.2.2, metadata := none }
  | .sequential effects, ctx =>
    let r := sequentialGo effects ctx ctx.gameState []
    { success := r.1, newState := r.2.1, messages := r.2.2, metadata := none }
  | .parallel effects, ctx =>
    let results := parallelGo effects ctx
    let success := results.all (fun r => r.success)
    let allMessages := (results.map (fun r => r.messages)).flatten
    let finalState :=
      if success then
        results.foldl (fun state result => mergeStates state result.newState) ctx.gameState
      else ctx.gameState
    { success := success, newState := finalState, messages := allMessages, metadata := none }
  | .chained first chainFn, ctx =>
    let firstResult := first.execute ctx
    if firstResult.success then
      let secondResult :=
        (chainFn firstResult).execute { ctx with gameState := firstResult.newState }
      { success := secondResult.success, newState := secondResult.newState
        messages := firstResult.messages ++ secondResult.messages, metadata := none }
    else firstResult
  | .conditional effect predicate, ctx =>
    if predicate ctx then effect.execute ctx
    else
      { success := true, newState := ctx.gameState
        messages := ["Condition not met for: " ++ effect.descr], metadata := none }
  | .repeated effect times, ctx =>
    let r := repeatGo (fun c => effect.execute c) ctx times.toNat ctx.gameState []
    { success := r.1, newState := r.2.1, messages := r.2.2, metadata := none }

/-- `CompositeEffect.execute`'s loop: thread `currentState`, accumulate
`allMessages`, and break with `success = false` at the first failing
child (its state and messages are still taken). -/
def compositeGo : List Effect → GameContext → GameState → List String →
    Bool × GameState × List String
  | [], _, currentState, allMessages => (true, currentState, allMessages)
  | effect :: rest, ctx, currentState, allMessages =>
    let result := effect.execute { ctx with gameState := currentState }
    if result.success then
      compositeGo rest ctx result.newState (allMessages ++ result.messages)
    else
      (false, result.newState, allMessages ++ result.messages)

/-- `SequentialEffect.execute`'s loop: textually a separate
implementation in the source (it returns from inside the loop on
failure) with the same resulting triple. -/
def sequentialGo : List Effect → GameContext → GameState → List String →
    Bool × GameState × List String
  | [], _, currentState, allMessages => (true, currentState, allMessages)
  | effect :: rest, ctx, currentState, allMessages =>
    let result := effect.execute { ctx with gameState := currentState }
    if result.success then
      sequentialGo rest ctx result.newState (allMessages ++ result.messages)
    else
      (false, result.newState, allMessages ++ result.messages)

/-- `ParallelEffect.execute`'s `this.effects.map(effect => effect.execute(context))`:
every child runs against the identical pre-parallel context. -/
def parallelGo : List Effect → GameContext → List EffectResult
  | [], _ => []
  | effect :: rest, ctx => effect.execute ctx :: parallelGo rest ctx

end

/-! ## Combinator lemmas -/

theorem compositeGo_acc (effects : List Effect) (ctx : GameContext) (s : GameState)
    (msgs : List String) :
    compositeGo effects ctx s msgs =
      ((compositeGo effects ctx s []).1, (compositeGo effects ctx s []).2.1,
        msgs ++ (compositeGo effects ctx s []).2.2) := by
  induction effects generalizing s msgs with
  | nil => simp [compositeGo]
  | cons e rest ih =>
    simp only [compositeGo]
    cases h : (Effect.execute e { ctx with gameState := s }).success
    · simp [h]
    · simp only [h, if_true, List.nil_append]
      rw [ih _ (msgs ++ _), ih _ (Effect.execute e { ctx with gameState := s }).messages]
      simp [List.append_assoc]

theorem sequentialGo_eq_compositeGo (effects : List Effect) (ctx : GameContext)
    (s : GameState) (msgs : List String) :
    sequentialGo effects ctx s msgs = compositeGo effects ctx s msgs := by
  induction effects generalizing s msgs with
  | nil => simp [sequentialGo, compositeGo]
  | cons e rest ih =>
    simp only [sequentialGo, compositeGo]
    cases h : (Effect.execute e { ctx with gameState := s }).success <;> simp [h, ih]

theorem parallelGo_eq_map (effects : List Effect) (ctx : GameContext) :
    parallelGo effects ctx = effects.map (fun e => e.execute ctx) := by
  induction effects with
  | nil => simp [parallelGo]
  | cons e rest ih => simp [parallelGo, ih]

/-- Replacing the `gameState` of the threading context does not change
the pipeline loop: children only ever see the context with `gameState`
overridden by the threaded state. -/
theorem compositeGo_ctx_gameState (effects : List Effect) (ctx : GameContext)
    (gs : GameState) (s : GameState) (msgs : List String) :
    compositeGo effects { ctx with gameState := gs } s msgs = compositeGo effects ctx s msgs := by
  induction effects generalizing s msgs with
  | nil => rfl
  | cons e rest ih =>
    simp only [compositeGo]
    cases h : (Effect.execute e { ctx with gameState := s }).success <;> simp [h, ih]

theorem compositeGo_append (pre post : List Effect) (ctx : GameContext) (s : GameState)
    (msgs : List String) :
    compositeGo (pre ++ post) ctx s msgs =
      (if (compositeGo pre ctx s msgs).1 then
        compositeGo post ctx (compositeGo pre ctx s msgs).2.1 (compositeGo pre ctx s msgs).2.2
      else compositeGo pre ctx s msgs) := by
  induction pre generalizing s msgs with
  | nil => simp [compositeGo]
  | cons e rest ih =>
    simp only [List.cons_append, compositeGo]
    cases h : (Effect.execute e { ctx with gameState := s }).success <;> simp [h, ih]

/-- C4: `SequentialEffect` and `CompositeEffect` are extensionally
equivalent — for every list of child effects and every game context the
two combinators return the same `EffectResult` (same success flag, same
resulting state, same message sequence). -/
theorem effectdeck_sequential_eq_composite (effects : List Effect) (ctx : GameContext) :
    (Effect.sequential effects).execute ctx = (Effect.composite effects).execute ctx := by
  simp [Effect.execute, sequentialGo_eq_compositeGo]

/-- C3: `CompositeEffect.execute` threads state sequentially through
its children in list order (each child receives the previous child's
resulting state), accumulates every executed child's messages including
the failing child's, stops at the first failing child so that no later
sibling contributes, and succeeds exactly when no executed child failed
— in particular the empty list succeeds with the state unchanged. -/
theorem effectdeck_composite_pipeline (ctx : GameContext) :
    ((Effect.composite []).execute ctx =
      { success := true, newState := ctx.gameState, messages := [], metadata := none })
    ∧ (∀ (e : Effect) (rest : List Effect),
        (Effect.composite (e :: rest)).execute ctx =
          (if (e.execute ctx).success then
            { success :=
                ((Effect.composite rest).execute
                  { ctx with gameState := (e.execute ctx).newState }).success
              newState :=
                ((Effect.composite rest).execute
                  { ctx with gameState := (e.execute ctx).newState }).newState
              messages := (e.execute ctx).messages ++
                ((Effect.composite rest).execute
                  { ctx with gameState := (e.execute ctx).newState }).messages
              metadata := none }
          else
            { success := false, newState := (e.execute ctx).newState
              messages := (e.execute ctx).messages, metadata := none }))
    ∧ (∀ (pre post : List Effect),
        ((Effect.composite pre).execute ctx).success = false →
          (Effect.composite (pre ++ post)).execute ctx = (Effect.composite pre).execute ctx) := by
  refine ⟨?_, ?_, ?_⟩
  · simp [Effect.execute, compositeGo]
  · intro e rest
    simp only [Effect.execute, compositeGo]
    have hctx : ({ ctx with gameState := ctx.gameState } : GameContext) = ctx := rfl
    rw [hctx]
    cases h : (Effect.execute e ctx).success
    · simp [h]
    · simp only [h, if_true, List.nil_append, compositeGo_ctx_gameState]
      rw [compositeGo_acc]
  · intro pre post hfail
    simp only [Effect.execute] at hfail ⊢
    rw [compositeGo_append]
    cases h : (compositeGo pre ctx ctx.gameState []).1
    · simp [h]
    · rw [h] at hfail
      simp at hfail

/-- C2: `ParallelEffect.execute` evaluates every child against the
identical pre-parallel context (and hence the identical input state);
overall success is the conjunction of the children's successes; the
messages are the concatenation of all children's messages in list order
regardless of individual success; on overall success the final state is
the left-to-right fold of the children's result states into an
accumulator seeded with the original state under the shallow
top-level-field spread merge `mergeStates` (a later child's value for a
top-level field unconditionally overwrites an earlier child's); on
overall failure the pre-parallel state is returned unchanged. -/
theorem effectdeck_parallel_merge (effects : List Effect) (ctx : GameContext) :
    (Effect.parallel effects).execute ctx =
      { success := (effects.map (fun e => e.execute ctx)).all (fun r => r.success)
        newState :=
          (if (effects.map (fun e => e.execute ctx)).all (fun r => r.success) then
            (effects.map (fun e => e.execute ctx)).foldl
              (fun state result => mergeStates state result.newState) ctx.gameState
          else ctx.gameState)
        messages := ((effects.map (fun e => e.execute ctx)).map (fun r => r.messages)).flatten
        metadata := none } := by
  simp only [Effect.execute, parallelGo_eq_map]

/-! ## Concrete scenario used by counterexamples and witnesses -/

def cexPlayer : PlayerState :=
  { id := "p1", health := 10, maxHealth := 10, hand := [], deck := [], discardPile := []
    resources := [("mana", 0)] }

def cexState : GameState :=
  { players := [("p1", cexPlayer)], currentPlayer := "p1", turn := 1, phase := .main }

def cexCtx : GameContext := { playerId := "p1", gameState := cexState }

/-- An `Effect` subclass (leaf) whose result carries a metadata mapping
and reports failure — permitted by the open `Effect` contract. -/
def metaLeaf : Effect :=
  .custom "meta leaf" (fun ctx =>
    { success := false, newState := ctx.gameState, messages := []
      metadata := some [("source", "meta leaf")] })

/-- C10 counterexample: `ChainedEffect` forwards the first child's
result unchanged when that child fails, so its result can carry the
child's metadata — the combinators do not always strip metadata. -/
theorem effectdeck_chained_metadata_cex :
    ((Effect.chained metaLeaf (fun _ => metaLeaf)).execute cexCtx).metadata ≠ none := by
  decide

/-- C10 (amended): `Composite`, `Sequential`, `Parallel` and `Repeated`
always return a result whose metadata field is absent, even when
children's results carry metadata; `Chained` does so when its first
child succeeds — taking success and state from the second effect and
concatenating both message lists while dropping both children's
metadata — but when the first child fails it returns that child's
result unchanged, metadata included. -/
theorem effectdeck_combinator_metadata (effects : List Effect) (e first : Effect)
    (chainFn : EffectResult → Effect) (times : Int) (ctx : GameContext) :
    ((Effect.composite effects).execute ctx).metadata = none
    ∧ ((Effect.sequential effects).execute ctx).metadata = none
    ∧ ((Effect.parallel effects).execute ctx).metadata = none
    ∧ ((Effect.repeated e times).execute ctx).metadata = none
    ∧ ((first.execute ctx).success = true →
        (Effect.chained first chainFn).execute ctx =
          { success := ((chainFn (first.execute ctx)).execute
              { ctx with gameState := (first.execute ctx).newState }).success
            newState := ((chainFn (first.execute ctx)).execute
              { ctx with gameState := (first.execute ctx).newState }).newState
            messages := (first.execute ctx).messages ++
              ((chainFn (first.execute ctx)).execute
                { ctx with gameState := (first.execute ctx).newState }).messages
            metadata := none })
    ∧ ((first.execute ctx).success = false →
        (Effect.chained first chainFn).execute ctx = first.execute ctx) := by
  refine ⟨?_, ?_, ?_, ?_, ?_, ?_⟩
  · simp [Effect.execute]
  · simp [Effect.execute]
  · simp [Effect.execute]
  · simp [Effect.execute]
  · intro h
    simp only [Effect.execute]
    simp [h]
  · intro h
    simp only [Effect.execute]
    simp [h]

/-- Marks the four leaf effects (`damage`, `heal`, `draw`, `resource`). -/
def Effect.isPrimitive : Effect → Bool
  | .damage _ _ => true
  | .heal _ _ => true
  | .draw _ _ => true
  | .resource _ _ _ _ => true
  | _ => false

/-- C1 counterexample: a composite whose first child succeeds (and
mutates) before the second child fails returns `success = false`
together with the partially mutated state, not the original one. -/
theorem effectdeck_failure_state_cex :
    ((Effect.composite [Effect.resource "mana" 1 .gain .self,
        Effect.resource "mana" 5 .spend .self]).execute cexCtx).success = false
    ∧ ((Effect.composite [Effect.resource "mana" 1 .gain .self,
        Effect.resource "mana" 5 .spend .self]).execute cexCtx).newState ≠ cexCtx.gameState := by
  decide

/-- C1 (amended): for every primitive effect (damage, heal, draw,
resource), a result with `success = false` comes with the original,
unmodified input state — no partial mutation escapes a failing
primitive.  The combinators do not share this property: a pipeline that
fails after a successful child returns the partially threaded state. -/
theorem effectdeck_primitive_failure_state (e : Effect) (ctx : GameContext)
    (hprim : e.isPrimitive = true)
    (hfail : (e.execute ctx).success = false) :
    (e.execute ctx).newState = ctx.gameState := by
  cases e with
  | damage amount target =>
    cases target with
    | self =>
      simp only [Effect.execute, damageExec] at hfail ⊢
      rcases hl : lookupA ctx.gameState.players ctx.playerId with _ | p
      · simp [hl]
      · simp [hl] at hfail
    | opponent =>
      simp only [Effect.execute, damageExec] at hfail ⊢
      rcases hf : ctx.gameState.players.find? (fun pr => pr.1 != ctx.playerId) with _ | pr
      · simp [hf]
      · obtain ⟨oid, opp⟩ := pr
        by_cases ho : oid = ""
        · simp [hf, ho]
        · simp [hf, ho] at hfail
    | all =>
      simp only [Effect.execute, damageExec] at hfail
      simp at hfail
  | heal amount target =>
    cases target with
    | self =>
      simp only [Effect.execute, healExec] at hfail ⊢
      rcases hl : lookupA ctx.gameState.players ctx.playerId with _ | p
      · simp [hl]
      · simp [hl] at hfail
    | ally =>
      simp only [Effect.execute, healExec] at hfail ⊢
      rcases hf : ctx.gameState.players.find? (fun pr => pr.1 != ctx.playerId) with _ | pr
      · simp [hf]
      · obtain ⟨aid, ally⟩ := pr
        by_cases ha : aid = ""
        · simp [hf, ha]
        · simp [hf, ha] at hfail
    | all =>
      simp only [Effect.execute, healExec] at hfail
      simp at hfail
  | draw count target =>
    simp only [Effect.execute, drawExec] at hfail ⊢
    rcases hr : resolveTargetId (target = DrawTarget.self) ctx with _ | tid
    · simp [hr]
    · rcases hl : lookupA ctx.gameState.players tid with _ | p
      · simp [hr, hl]
      · simp [hr, hl] at hfail
  | resource resourceType amount operation target =>
    simp only [Effect.execute, resourceExec] at hfail ⊢
    rcases hr : resolveTargetId (target = ResourceTarget.self) ctx with _ | tid
    · simp [hr]
    · rcases hl : lookupA ctx.gameState.players tid with _ | p
      · simp [hr, hl]
      · cases operation with
        | gain => simp [hr, hl] at hfail
        | spend =>
          by_cases hc : (lookupA p.resources resourceType).getD 0 < amount
          · simp [hr, hl, hc]
          · simp [hr, hl, hc] at hfail
        | set => simp [hr, hl] at hfail
  | custom d f => simp [Effect.isPrimitive] at hprim
  | composite effects => simp [Effect.isPrimitive] at hprim
  | sequential effects => simp [Effect.isPrimitive] at hprim
  | parallel effects => simp [Effect.isPrimitive] at hprim
  | chained first chainFn => simp [Effect.isPrimitive] at hprim
  | conditional effect predicate => simp [Effect.isPrimitive] at hprim
  | repeated effect times => simp [Effect.isPrimitive] at hprim

theorem effectdeck_composite_pipeline_witness :
    ((Effect.composite [Effect.resource "mana" 5 .spend .self]).execute cexCtx).success = false
    ∧ (Effect.composite ([Effect.resource "mana" 5 .spend .self] ++
        [Effect.resource "mana" 1 .gain .self])).execute cexCtx =
      (Effect.composite [Effect.resource "mana" 5 .spend .self]).execute cexCtx :=
  ⟨by decide, (effectdeck_composite_pipeline cexCtx).2.2 _ _ (by decide)⟩

theorem effectdeck_combinator_metadata_witness :
    ((metaLeaf.execute cexCtx).success = false)
    ∧ (Effect.chained metaLeaf (fun _ => metaLeaf)).execute cexCtx = metaLeaf.execute cexCtx :=
  ⟨by decide,
    (effectdeck_combinator_metadata [] metaLeaf metaLeaf (fun _ => metaLeaf) 0
      cexCtx).2.2.2.2.2 (by decide)⟩

theorem effectdeck_primitive_failure_state_witness :
    (Effect.resource "mana" 5 .spend .self).isPrimitive = true
    ∧ ((Effect.resource "mana" 5 .spend .self).execute cexCtx).newState = cexCtx.gameState :=
  ⟨by decide, effectdeck_primitive_failure_state _ cexCtx (by decide) (by decide)⟩

/-! ## Health clamping -/

/-- Every player's health lies within `[0, maxHealth]`. -/
def healthBounds (s : GameState) : Prop :=
  ∀ pr ∈ s.players, 0 ≤ pr.2.health ∧ pr.2.health ≤ pr.2.maxHealth

instance healthBoundsDecidable (s : GameState) : Decidable (healthBounds s) :=
  inferInstanceAs (Decidable (∀ pr ∈ s.players, 0 ≤ pr.2.health ∧ pr.2.health ≤ pr.2.maxHealth))

/-- Number of players a damage effect touches: the whole mapping for
`all`, one resolved player otherwise. -/
def damageAffected : DamageTarget → GameState → Nat
  | .all, s => s.players.length
  | _, _ => 1

/-- Number of players a heal effect touches. -/
def healAffected : HealTarget → GameState → Nat
  | .all, s => s.players.length
  | _, _ => 1

/-- C5: for non-negative amounts, damage and heal preserve the health
invariant `0 ≤ health ≤ maxHealth`: the damage actually applied is
`min(amount, health)` so health floors at 0, the heal actually applied
is `min(amount, maxHealth - health)` so health ceilings at `maxHealth`,
and on success exactly one message is emitted per affected player. -/
theorem effectdeck_damage_heal_clamp (amount : Int) (dt : DamageTarget) (ht : HealTarget)
    (ctx : GameContext) (hamt : 0 ≤ amount) (hinv : healthBounds ctx.gameState) :
    healthBounds ((Effect.damage amount dt).execute ctx).newState
    ∧ healthBounds ((Effect.heal amount ht).execute ctx).newState
    ∧ (((Effect.damage amount dt).execute ctx).success = true →
        ((Effect.damage amount dt).execute ctx).messages.length = damageAffected dt ctx.gameState)
    ∧ (((Effect.heal amount ht).execute ctx).success = true →
        ((Effect.heal amount ht).execute ctx).messages.length = healAffected ht ctx.gameState)
    ∧ ((Effect.damage amount .all).execute ctx).newState.players =
        ctx.gameState.players.map (fun pr =>
          (pr.1, { pr.2 with health := pr.2.health - min amount pr.2.health }))
    ∧ ((Effect.heal amount .all).execute ctx).newState.players =
        ctx.gameState.players.map (fun pr =>
          (pr.1, { pr.2 with health := pr.2.health + min amount (pr.2.maxHealth - pr.2.health) })) := by
  refine ⟨?_, ?_, ?_, ?_, ?_, ?_⟩
  · cases dt with
    | self =>
      simp only [Effect.execute, damageExec]
      rcases hl : lookupA ctx.gameState.players ctx.playerId with _ | p
      · simpa [hl] using hinv
      · simp only [hl]
        intro pr hpr
        rcases mem_setA hpr with h1 | h1
        · subst h1
          have hb : 0 ≤ p.health ∧ p.health ≤ p.maxHealth := hinv _ (lookupA_mem hl)
          have h2 : min amount p.health ≤ p.health := min_le_right _ _
          have h3 : (0 : Int) ≤ min amount p.health := le_min hamt hb.1
          show 0 ≤ p.health - min amount p.health ∧
            p.health - min amount p.health ≤ p.maxHealth
          omega
        · exact hinv _ h1
    | opponent =>
      simp only [Effect.execute, damageExec]
      rcases hf : ctx.gameState.players.find? (fun pr => pr.1 != ctx.playerId) with _ | pr0
      · simpa [hf] using hinv
      · obtain ⟨oid, opp⟩ := pr0
        by_cases ho : oid = ""
        · simpa [hf, ho] using hinv
        · simp only [hf, ho, if_neg ho]
          intro pr hpr
          rcases mem_setA hpr with h1 | h1
          · subst h1
            have hb : 0 ≤ opp.health ∧ opp.health ≤ opp.maxHealth :=
              hinv _ (List.mem_of_find?_eq_some hf)
            have h2 : min amount opp.health ≤ opp.health := min_le_right _ _
            have h3 : (0 : Int) ≤ min amount opp.health := le_min hamt hb.1
            show 0 ≤ opp.health - min amount opp.health ∧
              opp.health - min amount opp.health ≤ opp.maxHealth
            omega
          · exact hinv _ h1
    | all =>
      simp only [Effect.execute, damageExec]
      intro pr hpr
      simp only [List.mem_map] at hpr
      obtain ⟨orig, hmem, rfl⟩ := hpr
      have hb := hinv _ hmem
      have h2 : min amount orig.2.health ≤ orig.2.health := min_le_right _ _
      have h3 : (0 : Int) ≤ min amount orig.2.health := le_min hamt hb.1
      show 0 ≤ orig.2.health - min amount orig.2.health ∧
        orig.2.health - min amount orig.2.health ≤ orig.2.maxHealth
      omega
  · cases ht with
    | self =>
      simp only [Effect.execute, healExec]
      rcases hl : lookupA ctx.gameState.players ctx.playerId with _ | p
      · simpa [hl] using hinv
      · simp only [hl]
        intro pr hpr
        rcases mem_setA hpr with h1 | h1
        · subst h1
          have hb : 0 ≤ p.health ∧ p.health ≤ p.maxHealth := hinv _ (lookupA_mem hl)
          have h2 : min amount (p.maxHealth - p.health) ≤ p.maxHealth - p.health :=
            min_le_right _ _
          have h3 : (0 : Int) ≤ min amount (p.maxHealth - p.health) :=
            le_min hamt (by omega)
          show 0 ≤ p.health + min amount (p.maxHealth - p.health) ∧
            p.health + min amount (p.maxHealth - p.health) ≤ p.maxHealth
          omega
        · exact hinv _ h1
    | ally =>
      simp only [Effect.execute, healExec]
      rcases hf : ctx.gameState.players.find? (fun pr => pr.1 != ctx.playerId) with _ | pr0
      · simpa [hf] using hinv
      · obtain ⟨aid, ally⟩ := pr0
        by_cases ha : aid = ""
        · simpa [hf, ha] using hinv
        · simp only [hf, ha, if_neg ha]
          intro pr hpr
          rcases mem_setA hpr with h1 | h1
          · subst h1
            have hb : 0 ≤ ally.health ∧ ally.health ≤ ally.maxHealth :=
              hinv _ (List.mem_of_find?_eq_some hf)
            have h2 : min amount (ally.maxHealth - ally.health) ≤ ally.maxHealth - ally.health :=
              min_le_right _ _
            have h3 : (0 : Int) ≤ min amount (ally.maxHealth - ally.health) :=
              le_min hamt (by omega)
            show 0 ≤ ally.health + min amount (ally.maxHealth - ally.health) ∧
              ally.health + min amount (ally.maxHealth - ally.health) ≤ ally.maxHealth
            omega
          · exact hinv _ h1
    | all =>
      simp only [Effect.execute, healExec]
      intro pr hpr
      simp only [List.mem_map] at hpr
      obtain ⟨orig, hmem, rfl⟩ := hpr
      have hb := hinv _ hmem
      have h2 : min amount (orig.2.maxHealth - orig.2.health) ≤
          orig.2.maxHealth - orig.2.health := min_le_right _ _
      have h3 : (0 : Int) ≤ min amount (orig.2.maxHealth - orig.2.health) :=
        le_min hamt (by omega)
      show 0 ≤ orig.2.health + min amount (orig.2.maxHealth - orig.2.health) ∧
        orig.2.health + min amount (orig.2.maxHealth - orig.2.health) ≤ orig.2.maxHealth
      omega
  · cases dt with
    | self =>
      simp only [Effect.execute, damageExec]
      rcases hl : lookupA ctx.gameState.players ctx.playerId with _ | p
      · intro h
        simp [hl] at h
      · intro _
        simp [hl, damageAffected]
    | opponent =>
      simp only [Effect.execute, damageExec]
      rcases hf : ctx.gameState.players.find? (fun pr => pr.1 != ctx.playerId) with _ | pr0
      · intro h
        simp [hf] at h
      · obtain ⟨oid, opp⟩ := pr0
        by_cases ho : oid = ""
        · intro h
          simp [hf, ho] at h
        · intro _
          simp [hf, ho, damageAffected]
    | all =>
      intro _
      simp [Effect.execute, damageExec, damageAffected]
  · cases ht with
    | self =>
      simp only [Effect.execute, healExec]
      rcases hl : lookupA ctx.gameState.players ctx.playerId with _ | p
      · intro h
        simp [hl] at h
      · intro _
        simp [hl, healAffected]
    | ally =>
      simp only [Effect.execute, healExec]
      rcases hf : ctx.gameState.players.find? (fun pr => pr.1 != ctx.playerId) with _ | pr0
      · intro h
        simp [hf] at h
      · obtain ⟨aid, ally⟩ := pr0
        by_cases ha : aid = ""
        · intro h
          simp [hf, ha] at h
        · intro _
          simp [hf, ha, healAffected]
    | all =>
      intro _
      simp [Effect.execute, healExec, healAffected]
  · simp [Effect.execute, damageExec]
  · simp [Effect.execute, healExec]

theorem effectdeck_damage_heal_clamp_witness :
    healthBounds ((Effect.damage 30 .opponent).execute cexCtx).newState
    ∧ healthBounds ((Effect.heal 30 .self).execute cexCtx).newState :=
  ⟨(effectdeck_damage_heal_clamp 30 .opponent .self cexCtx (by decide) (by decide)).1,
    (effectdeck_damage_heal_clamp 30 .opponent .self cexCtx (by decide) (by decide)).2.1⟩

/-- C6: once the target player is resolved, `DrawCardEffect.execute`
always succeeds.  The loop repeats `count` times; when the deck is
empty and the discard pile is not, the whole discard pile becomes the
new deck in order, the discard pile is cleared (at most once per
empty-deck encounter) and drawing continues within the same iteration;
when both are empty the loop stops early — with overall success, no
card moved and a cannot-draw message; otherwise each iteration moves
one card from the tail of the deck to the tail of the hand. -/
theorem effectdeck_draw_no_failure (count : Int) (target : DrawTarget) (ctx : GameContext)
    (tid : String) (player : PlayerState)
    (hres : resolveTargetId (target = DrawTarget.self) ctx = some tid)
    (hp : lookupA ctx.gameState.players tid = some player) :
    ((Effect.draw count target).execute ctx).success = true
    ∧ (player.deck = [] → player.discardPile = [] → 1 ≤ count →
        (Effect.draw count target).execute ctx =
          { success := true, newState := ctx.gameState
            messages := [tid ++ " cannot draw - no cards available"], metadata := none })
    ∧ (∀ (k : Nat) (st : DrawLoop), st.deck = [] → st.discardPile = [] →
        drawGo tid (k + 1) st =
          { st with msgs := st.msgs ++ [tid ++ " cannot draw - no cards available"] })
    ∧ (∀ (k : Nat) (st : DrawLoop), st.deck = [] → st.discardPile ≠ [] →
        drawGo tid (k + 1) st =
          drawGo tid k (drawStep
            { st with deck := st.discardPile, discardPile := [],
                      msgs := st.msgs ++ [tid ++ " shuffles discard pile into deck"] }))
    ∧ (∀ (k : Nat) (st : DrawLoop) (card : Card), st.deck.getLast? = some card →
        drawGo tid (k + 1) st =
          drawGo tid k
            { st with deck := st.deck.dropLast, hand := st.hand ++ [card],
                      drawn := st.drawn + 1 }) := by
  refine ⟨?_, ?_, ?_, ?_, ?_⟩
  · simp [Effect.execute, drawExec, hres, hp]
  · intro hdeck hdisc hcount
    obtain ⟨k, hk⟩ : ∃ k, count.toNat = k + 1 := ⟨count.toNat - 1, by omega⟩
    simp only [Effect.execute, drawExec, hres, hp, hk]
    rw [drawGo]
    simp only [hdeck, hdisc, List.isEmpty_nil, if_true]
    simp only [List.nil_append]
    have hstate :
        ({ player with
            deck := player.deck, hand := player.hand,
            discardPile := player.discardPile } : PlayerState) = player := rfl
    rw [hdeck, hdisc] at hstate
    rw [hstate, setA_self _ _ _ hp]
    simp
  · intro k st h1 h2
    rw [drawGo]
    simp [h1, h2]
  · intro k st h1 h2
    rw [drawGo]
    simp [h1, h2]
  · intro k st card hcard
    have hne : st.deck ≠ [] := by
      intro h
      rw [h] at hcard
      simp at hcard
    rw [drawGo]
    simp [hne, drawStep, hcard]

theorem effectdeck_draw_no_failure_witness :
    ((Effect.draw 2 .self).execute cexCtx).success = true
    ∧ (Effect.draw 2 .self).execute cexCtx =
      { success := true, newState := cexCtx.gameState
        messages := ["p1 cannot draw - no cards available"], metadata := none } :=
  ⟨(effectdeck_draw_no_failure 2 .self cexCtx "p1" cexPlayer (by decide) (by decide)).1,
    (effectdeck_draw_no_failure 2 .self cexCtx "p1" cexPlayer (by decide) (by decide)).2.1
      rfl rfl (by decide)⟩

/-- C7: with a resolved target, `spend` succeeds and decreases the
resource by `amount` exactly when the current amount (0 when unset) is
at least `amount`; otherwise it fails with a message reporting
current/required (e.g. containing "3/5" for current 3 and amount 5) and
the unchanged game state.  `gain` adds to the current amount (default
0) and `set` overwrites unconditionally. -/
theorem effectdeck_resource_spec (resourceType : String) (amount : Int)
    (target : ResourceTarget) (ctx : GameContext) (tid : String) (player : PlayerState)
    (hres : resolveTargetId (target = ResourceTarget.self) ctx = some tid)
    (hp : lookupA ctx.gameState.players tid = some player) :
    (amount ≤ (lookupA player.resources resourceType).getD 0 →
      (Effect.resource resourceType amount .spend target).execute ctx =
        { success := true
          newState := { ctx.gameState with
            players := setA ctx.gameState.players tid
              { player with
                  resources := setA player.resources resourceType
                    ((lookupA player.resources resourceType).getD 0 - amount) } }
          messages := [tid ++ " spends " ++ toString amount ++ " " ++ resourceType]
          metadata := none })
    ∧ ((lookupA player.resources resourceType).getD 0 < amount →
      (Effect.resource resourceType amount .spend target).execute ctx =
        { success := false, newState := ctx.gameState
          messages := [tid ++ " doesn\x27t have enough " ++ resourceType ++ " (" ++
            toString ((lookupA player.resources resourceType).getD 0) ++ "/" ++
            toString amount ++ ")"]
          metadata := none })
    ∧ ((Effect.resource resourceType amount .gain target).execute ctx =
        { success := true
          newState := { ctx.gameState with
            players := setA ctx.gameState.players tid
              { player with
                  resources := setA player.resources resourceType
                    ((lookupA player.resources resourceType).getD 0 + amount) } }
          messages := [tid ++ " gains " ++ toString amount ++ " " ++ resourceType]
          metadata := none })
    ∧ ((Effect.resource resourceType amount .set target).execute ctx =
        { success := true
          newState := { ctx.gameState with
            players := setA ctx.gameState.players tid
              { player with resources := setA player.resources resourceType amount } }
          messages := [tid ++ " " ++ resourceType ++ " set to " ++ toString amount]
          metadata := none }) := by
  refine ⟨?_, ?_, ?_, ?_⟩
  · intro h
    simp [Effect.execute, resourceExec, hres, hp, not_lt.mpr h]
  · intro h
    simp [Effect.execute, resourceExec, hres, hp, h]
  · simp [Effect.execute, resourceExec, hres, hp]
  · simp [Effect.execute, resourceExec, hres, hp]

def w7Player : PlayerState :=
  { id := "p1", health := 10, maxHealth := 10, hand := [], deck := [], discardPile := []
    resources := [("mana", 3)] }

def w7Ctx : GameContext :=
  { playerId := "p1"
    gameState :=
      { players := [("p1", w7Player)], currentPlayer := "p1", turn := 1, phase := .main } }

theorem effectdeck_resource_spec_witness :
    (Effect.resource "mana" 5 .spend .self).execute w7Ctx =
      { success := false, newState := w7Ctx.gameState
        messages := ["p1 doesn\x27t have enough mana (3/5)"], metadata := none }
    ∧ List.IsInfix "3/5".data "p1 doesn\x27t have enough mana (3/5)".data :=
  ⟨(effectdeck_resource_spec "mana" 5 .self w7Ctx "p1" w7Player (by decide)
      (by decide)).2.1 (by decide),
    by decide⟩

/-! ## Capability registry (`Context.ts`)

`Context` holds two string-keyed `Map`s: lazily cached service
instances and registered providers.  `provide` mutates `this.services`
when it instantiates; the model passes the updated registry back
explicitly.  The payload field distinguishes service instances. -/

structure ServiceV where
  id : String
  payload : Nat
deriving DecidableEq, Repr

/-- A provider (factory): `provide(): T`. -/
structure ProviderV where
  provide : Unit → ServiceV

structure Context where
  services : List (String × ServiceV)
  providers : List (String × ProviderV)

/-- `register`: `new Context().copyFrom(this).addProvider(id, provider)`
— a fresh registry receiving every provider and every cached service of
the receiver in iteration order, plus the new provider; the receiver is
left untouched (value semantics here). -/
def Context.register (c : Context) (id : String) (provider : ProviderV) : Context :=
  { services := c.services, providers := setA c.providers id provider }

/-- `provide`: return the cached instance when present, otherwise
invoke the registered factory and cache the result on this registry
value; an unregistered id throws. -/
def Context.provide (c : Context) (id : String) : Except String (ServiceV × Context) :=
  match lookupA c.services id with
  | some cached => .ok (cached, c)
  | none =>
    match lookupA c.providers id with
    | none => .error ("No provider registered for service: " ++ id)
    | some provider =>
      let service := provider.provide ()
      .ok (service, { c with services := setA c.services id service })

/-- `has`: a provider or a cached instance exists for `id`. -/
def Context.has (c : Context) (id : String) : Bool :=
  (lookupA c.providers id).isSome || (lookupA c.services id).isSome

/-- `fork`: `new Context().copyFrom(this)` — a snapshot holding the
same providers and cached services. -/
def Context.fork (c : Context) : Context :=
  { services := c.services, providers := c.providers }

/-- C9: `provide` memoizes per registry value — after a successful
`provide(id)` the returned registry caches the instance and a second
`provide(id)` returns that identical cached instance and the identical
registry; `provide(id)` for an id never registered on the lineage
throws the "No provider registered" error; `register` yields a registry
with the new provider, all previous providers under other ids, and
every already-cached service, the receiver being a value that stays as
it was; `fork` is a snapshot equal to the original, and registering on
the fork gives the fork the capability while the original still lacks
it. -/
theorem effectdeck_context_registry (c : Context) (id j : String) (p : ProviderV) :
    (∀ (s : ServiceV) (c1 : Context), c.provide id = .ok (s, c1) →
      lookupA c1.services id = some s ∧ c1.provide id = .ok (s, c1))
    ∧ (c.has id = false →
        c.provide id = .error ("No provider registered for service: " ++ id))
    ∧ lookupA (c.register id p).providers id = some p
    ∧ (j ≠ id → lookupA (c.register id p).providers j = lookupA c.providers j)
    ∧ (c.register id p).services = c.services
    ∧ c.fork = c
    ∧ (c.has id = false → ((c.fork.register id p).has id = true ∧ c.has id = false)) := by
  refine ⟨?_, ?_, ?_, ?_, ?_, ?_, ?_⟩
  · intro s c1 h
    rcases hs : lookupA c.services id with _ | cached
    · rcases hp : lookupA c.providers id with _ | provider
      · simp [Context.provide, hs, hp] at h
      · simp only [Context.provide, hs, hp] at h
        cases h
        refine ⟨lookupA_setA_self _ _ _, ?_⟩
        simp [Context.provide, lookupA_setA_self]
    · simp only [Context.provide, hs] at h
      cases h
      exact ⟨hs, by simp [Context.provide, hs]⟩
  · intro h
    simp only [Context.has, Bool.or_eq_false_iff] at h
    obtain ⟨h1, h2⟩ := h
    rcases hp : lookupA c.providers id with _ | q
    · rcases hs : lookupA c.services id with _ | s
      · simp [Context.provide, hp, hs]
      · rw [hs] at h2
        simp at h2
    · rw [hp] at h1
      simp at h1
  · exact lookupA_setA_self _ _ _
  · intro hne
    exact lookupA_setA_ne _ _ _ _ hne
  · rfl
  · rfl
  · intro h
    refine ⟨?_, h⟩
    simp [Context.has, Context.register, Context.fork, lookupA_setA_self]

def wProvider : ProviderV := ⟨fun _ => ⟨"logger", 7⟩⟩

def wCtx0 : Context := { services := [], providers := [("logger", wProvider)] }

def wCtx1 : Context :=
  { services := [("logger", ⟨"logger", 7⟩)], providers := [("logger", wProvider)] }

theorem effectdeck_context_registry_witness :
    (lookupA wCtx1.services "logger" = some ⟨"logger", 7⟩
      ∧ wCtx1.provide "logger" = .ok (⟨"logger", 7⟩, wCtx1))
    ∧ wCtx0.provide "storage" = .error "No provider registered for service: storage"
    ∧ ((wCtx0.fork.register "storage" wProvider).has "storage" = true
        ∧ wCtx0.has "storage" = false) :=
  ⟨(effectdeck_context_registry wCtx0 "logger" "x" wProvider).1 ⟨"logger", 7⟩ wCtx1 rfl,
    (effectdeck_context_registry wCtx0 "storage" "x" wProvider).2.1 rfl,
    (effectdeck_context_registry wCtx0 "storage" "x" wProvider).2.2.2.2.2.2 rfl⟩

/-! ## In-memory storage (`MemoryStorage` in `Context.ts`)

Values move through `JSON.parse(JSON.stringify(x))` on both `save` and
`load`; storable values are therefore the JSON value tree, on which the
round trip is a structural deep copy. -/

inductive JValue where
  | null
  | bool (b : Bool)
  | num (n : Int)
  | str (s : String)
  | arr (items : List JValue)
  | obj (fields : List (String × JValue))

/-- JS truthiness of a JSON value: `null`, `false`, `0` and `""` are
falsy; every array and object is truthy. -/
def JValue.truthy : JValue → Bool
  | .null => false
  | .bool b => b
  | .num n => n != 0
  | .str s => s != ""
  | .arr _ => true
  | .obj _ => true

mutual

/-- The `JSON.parse(JSON.stringify(x))` boundary: a structural deep
copy of a JSON value. -/
def JValue.deepCopy : JValue → JValue
  | .null => .null
  | .bool b => .bool b
  | .num n => .num n
  | .str s => .str s
  | .arr items => .arr (deepCopyList items)
  | .obj fields => .obj (deepCopyFields fields)

def deepCopyList : List JValue → List JValue
  | [] => []
  | v :: rest => v.deepCopy :: deepCopyList rest

def deepCopyFields : List (String × JValue) → List (String × JValue)
  | [] => []
  | (k, v) :: rest => (k, v.deepCopy) :: deepCopyFields rest

end

structure MemoryStorage where
  data : List (String × JValue)

/-- `save`: `this.data.set(key, JSON.parse(JSON.stringify(data)))`. -/
def MemoryStorage.save (st : MemoryStorage) (key : String) (v : JValue) : MemoryStorage :=
  { st with data := setA st.data key v.deepCopy }

/-- `load`: `const data = this.data.get(key); return data ? JSON.parse(JSON.stringify(data)) : null;`
— note the truthiness test on the stored value itself. -/
def MemoryStorage.load (st : MemoryStorage) (key : String) : Option JValue :=
  match lookupA st.data key with
  | some d => if d.truthy then some d.deepCopy else none
  | none => none

/-- `exists`: `this.data.has(key)`. -/
def MemoryStorage.existsKey (st : MemoryStorage) (key : String) : Bool :=
  (lookupA st.data key).isSome

/-- The empty store (`new Map()`). -/
def MemoryStorage.empty : MemoryStorage := { data := [] }

/-- C8 evidence: saving the storable value `0` under a key makes the
key exist, yet `load` answers with the absent result `null` because it
tests the stored value for truthiness instead of presence; truthy
values round-trip structurally; a never-saved key loads as `null`. -/
theorem effectdeck_storage_falsy_bug :
    (MemoryStorage.empty.save "k" (.num 0)).load "k" = none
    ∧ (MemoryStorage.empty.save "k" (.num 0)).existsKey "k" = true
    ∧ (MemoryStorage.empty.save "k" (.num 5)).load "k" = some (.num 5)
    ∧ (MemoryStorage.empty.save "k" (.bool false)).load "k" = none
    ∧ (MemoryStorage.empty.save "k" (.str "")).load "k" = none
    ∧ MemoryStorage.empty.load "missing" = none := by
  refine ⟨rfl, rfl, rfl, rfl, rfl, rfl⟩

mutual

theorem deepCopy_eq : ∀ v : JValue, v.deepCopy = v
  | .null => rfl
  | .bool _ => rfl
  | .num _ => rfl
  | .str _ => rfl
  | .arr items => by rw [JValue.deepCopy, deepCopyList_eq items]
  | .obj fields => by rw [JValue.deepCopy, deepCopyFields_eq fields]

theorem deepCopyList_eq : ∀ l : List JValue, deepCopyList l = l
  | [] => rfl
  | v :: rest => by rw [deepCopyList, deepCopy_eq v, deepCopyList_eq rest]

theorem deepCopyFields_eq : ∀ l : List (String × JValue), deepCopyFields l = l
  | [] => rfl
  | (k, v) :: rest => by rw [deepCopyFields, deepCopy_eq v, deepCopyFields_eq rest]

end

/-- Saving any truthy JSON value does round-trip structurally: the
deep-copy boundary preserves the value tree and the truthiness test
passes, so the bug of `load` is confined to falsy stored values. -/
theorem storage_roundtrip_truthy (st : MemoryStorage) (key : String) (v : JValue)
    (h : v.truthy = true) : (st.save key v).load key = some v := by
  simp [MemoryStorage.save, MemoryStorage.load, lookupA_setA_self, deepCopy_eq, h]
